import Mathlib

/-!
Shallow embedding of the plugin core of `ai-cli`:
`src/ai_cli/plugins.py` (Plugin contract, PluginRegistry) and
`src/ai_cli/plugin_manager.py` (PluginManager configuration persistence).

Modelling conventions:
* A record passed through a hook chain (a Python `Dict[str, Any]`) is an
  insertion-ordered association list `Rec`.
* A plugin object's identity is a natural number `pid`; the immutable part of
  a plugin (its `get_name`/`get_version` results, `get_schema_extensions`
  result, hook callbacks and the outcome of its `shutdown` coroutine) is a
  `PluginDef` looked up in an environment `env : Nat → PluginDef`, while the
  mutable `plugin.config` object is a heap `cfg : Nat → PluginConfig` carried
  in the world state, so that in-place mutation of a config is visible through
  every reference the registry holds, exactly as in Python.
* Python dicts are insertion-ordered association lists; `d[k] = v` replaces in
  place (keeping the key's position) or appends, which is `alist_update`.
* `list.sort(key=lambda x: -x[0])` is a stable descending sort on the first
  component; it is embedded as the stable insertion sort `sort_desc`.
-/

namespace AiCli

/-- A mapping-like record flowing through the hook pipeline
(`Dict[str, Any]` with integer payloads). -/
abbrev Rec := List (String × Int)

/-- An opaque field specification contributed by `get_schema_extensions`. -/
abbrev FieldSpec := String

/-- A JSON scalar as stored in the persisted plugin-configuration file. -/
inductive JsonVal where
  | jbool (b : Bool)
  | jint (n : Int)
  | jstr (s : String)
deriving DecidableEq, Repr

/-- `PluginConfig` (plugins.py lines 8-13): `enabled` (default true) and
`priority` (default 0).  The pydantic model also tolerates extra plugin-defined
fields; those never influence the registry and are not modelled. -/
structure PluginConfig where
  enabled : Bool
  priority : Int
deriving DecidableEq, Repr

/-- The immutable behaviour of one plugin object (plugins.py lines 16-89):
its name, version, declared schema extensions, the four hook callbacks
(identity by default, overridable), and the outcome of its `shutdown()`
coroutine (`.ok` if it returns, `.error msg` if it raises). -/
structure PluginDef where
  name : String
  version : String
  schema_extensions : List (String × List (String × FieldSpec))
  on_agent_init : Rec → Rec
  on_generate_request : Rec → Rec
  on_generate_response : Rec → Rec
  on_chat_message : Rec → Rec
  shutdown : Except String Unit

/-- Lookup in an insertion-ordered dict (`d.get(k)` / `k in d`). -/
def alist_lookup {α : Type} (k : String) : List (String × α) → Option α
  | [] => none
  | e :: rest => if e.1 = k then some e.2 else alist_lookup k rest

/-- `d[k] = v` on an insertion-ordered dict: replace in place, else append. -/
def alist_update {α : Type} (k : String) (v : α) : List (String × α) → List (String × α)
  | [] => [(k, v)]
  | e :: rest => if e.1 = k then (k, v) :: rest else e :: alist_update k v rest

/-- One step of the stable insertion sort for
`list.sort(key=lambda x: -x[0])`: the new element is placed before the first
element whose priority is not greater, so equal priorities keep their
original relative order. -/
def insert_desc (x : Int × Nat) : List (Int × Nat) → List (Int × Nat)
  | [] => [x]
  | y :: ys => if x.1 < y.1 then y :: insert_desc x ys else x :: y :: ys

/-- Stable descending sort on the first component, the embedding of
`list.sort(key=lambda x: -x[0])` (plugins.py line 134). -/
def sort_desc : List (Int × Nat) → List (Int × Nat)
  | [] => []
  | x :: xs => insert_desc x (sort_desc xs)

/-- The mutable state of one `PluginRegistry` (plugins.py lines 99-107):
the name index `_plugins`, the schema-extension map `_schema_extensions`,
and the `_hooks` dict with its four fixed keys, one chain field per key. -/
structure RegState where
  plugins : List (String × Nat)
  schema_extensions : List (String × List (String × FieldSpec))
  hook_agent_init : List (Int × Nat)
  hook_generate_request : List (Int × Nat)
  hook_generate_response : List (Int × Nat)
  hook_chat_message : List (Int × Nat)
deriving DecidableEq, Repr

/-- A registry together with the heap of mutable plugin-config objects. -/
structure World where
  reg : RegState
  cfg : Nat → PluginConfig

/-- A freshly constructed `PluginRegistry` (plugins.py `__init__`):
empty name index, empty schema map, four empty chains. -/
def init_world (c : Nat → PluginConfig) : World :=
  ⟨⟨[], [], [], [], [], []⟩, c⟩

/-- The schema-extension merge performed by `register`
(plugins.py lines 123-128): for each model in the plugin's extension dict,
start from the model's current field dict (empty if absent) and apply
`dict.update(fields)`: each field replaces a same-named field in place or is
appended. -/
def merge_extensions (exts : List (String × List (String × FieldSpec)))
    (se : List (String × List (String × FieldSpec))) :
    List (String × List (String × FieldSpec)) :=
  exts.foldl (fun se me =>
    alist_update me.1
      (me.2.foldl (fun d fv => alist_update fv.1 fv.2 d) ((alist_lookup me.1 se).getD []))
      se) se

/-- `PluginRegistry.register` (plugins.py lines 109-134).  Returns the world
after the call together with `none` on success or `some message` when the
`ValueError` for a duplicate name is raised; the raise happens before any
mutation, so on error the world is returned untouched.  On success the plugin
is appended to the name index, its schema extensions are merged, and the pair
(current priority, plugin) is appended to every one of the four chains, each
chain then being re-sorted stably by descending priority. -/
def register (env : Nat → PluginDef) (w : World) (pid : Nat) :
    World × Option String :=
  let name := (env pid).name
  if (alist_lookup name w.reg.plugins).isSome then
    (w, some ("Plugin " ++ name ++ " already registered"))
  else
    let priority := (w.cfg pid).priority
    ({ w with reg :=
        { plugins := w.reg.plugins ++ [(name, pid)]
          schema_extensions := merge_extensions (env pid).schema_extensions
            w.reg.schema_extensions
          hook_agent_init := sort_desc (w.reg.hook_agent_init ++ [(priority, pid)])
          hook_generate_request :=
            sort_desc (w.reg.hook_generate_request ++ [(priority, pid)])
          hook_generate_response :=
            sort_desc (w.reg.hook_generate_response ++ [(priority, pid)])
          hook_chat_message :=
            sort_desc (w.reg.hook_chat_message ++ [(priority, pid)]) } },
     none)

/-- A sequence of `register` calls; a raised duplicate error propagates and
aborts the rest of the sequence. -/
def register_all (env : Nat → PluginDef) (w : World) :
    List Nat → World × Option String
  | [] => (w, none)
  | p :: ps =>
    match register env w p with
    | (w', none) => register_all env w' ps
    | (w', some e) => (w', some e)

/-- `PluginRegistry.unregister` (plugins.py lines 136-143): no-op when the
name is absent; otherwise pop the name from the index and rebuild every chain
keeping only entries whose plugin is not the popped object
(`pl != plugin` is object identity, i.e. pid inequality). -/
def unregister (w : World) (plugin_name : String) : World :=
  match alist_lookup plugin_name w.reg.plugins with
  | none => w
  | some pid =>
    { w with reg :=
        { w.reg with
          plugins := w.reg.plugins.filter (fun e => e.1 ≠ plugin_name)
          hook_agent_init := w.reg.hook_agent_init.filter (fun e => e.2 ≠ pid)
          hook_generate_request :=
            w.reg.hook_generate_request.filter (fun e => e.2 ≠ pid)
          hook_generate_response :=
            w.reg.hook_generate_response.filter (fun e => e.2 ≠ pid)
          hook_chat_message :=
            w.reg.hook_chat_message.filter (fun e => e.2 ≠ pid) } }

/-- `PluginRegistry.list_plugins` (plugins.py lines 149-151): the name-index
keys in insertion order. -/
def list_plugins (w : World) : List String :=
  w.reg.plugins.map Prod.fst

/-- `PluginRegistry.get_schema_extensions` (plugins.py lines 153-155):
the model's field dict, or an empty dict when the model has no extensions. -/
def get_schema_extensions (w : World) (model_name : String) :
    List (String × FieldSpec) :=
  (alist_lookup model_name w.reg.schema_extensions).getD []

/-- `self._hooks` lookup: the chain stored under a hook name, `none` for a
name that is not one of the four fixed keys. -/
def hooks_lookup (reg : RegState) (hook_name : String) :
    Option (List (Int × Nat)) :=
  if hook_name = "agent_init" then some reg.hook_agent_init
  else if hook_name = "generate_request" then some reg.hook_generate_request
  else if hook_name = "generate_response" then some reg.hook_generate_response
  else if hook_name = "chat_message" then some reg.hook_chat_message
  else none

/-- The `if hook_name == ...: result = plugin.on_...(result)` dispatch inside
`execute_hook`'s loop (plugins.py lines 176-183). -/
def apply_callback (env : Nat → PluginDef) (hook_name : String) (pid : Nat)
    (r : Rec) : Rec :=
  if hook_name = "agent_init" then (env pid).on_agent_init r
  else if hook_name = "generate_request" then (env pid).on_generate_request r
  else if hook_name = "generate_response" then (env pid).on_generate_response r
  else if hook_name = "chat_message" then (env pid).on_chat_message r
  else r

/-- The loop of `execute_hook` (plugins.py lines 171-185), instrumented: it
returns the final record together with the list of plugins whose callback was
actually invoked, in invocation order.  A plugin whose current config has
`enabled` false is skipped (`continue`); otherwise its callback for the hook
receives the running `result` and its output becomes the new `result`. -/
def run_chain (env : Nat → PluginDef) (cfg : Nat → PluginConfig)
    (hook_name : String) : List (Int × Nat) → Rec → Rec × List Nat
  | [], data => (data, [])
  | e :: rest, data =>
    if (cfg e.2).enabled then
      let step := run_chain env cfg hook_name rest (apply_callback env hook_name e.2 data)
      (step.1, e.2 :: step.2)
    else run_chain env cfg hook_name rest data

/-- `PluginRegistry.execute_hook` (plugins.py lines 157-185), instrumented
with the invocation trace: an unrecognized hook name returns the input record
unchanged and invokes nobody; otherwise the chain stored under the hook name
is run sequentially. -/
def execute_hook (env : Nat → PluginDef) (w : World) (hook_name : String)
    (data : Rec) : Rec × List Nat :=
  match hooks_lookup w.reg hook_name with
  | some chain => run_chain env w.cfg hook_name chain data
  | none => (data, [])

/-- The loop of `shutdown_all` (plugins.py lines 193-199): every registered
plugin's `shutdown()` is awaited in registration order; a raised exception is
caught and turned into a printed message, and the loop continues.  The result
is the list of plugins whose `shutdown()` was invoked together with the
printed error lines; the function always returns normally. -/
def shutdown_loop (env : Nat → PluginDef) :
    List (String × Nat) → List Nat × List String
  | [] => ([], [])
  | e :: rest =>
    let r := shutdown_loop env rest
    match (env e.2).shutdown with
    | .ok _ => (e.2 :: r.1, r.2)
    | .error msg =>
      (e.2 :: r.1,
       ("Error shutting down plugin " ++ (env e.2).name ++ ": " ++ msg) :: r.2)

/-- `PluginRegistry.shutdown_all` over the registered-plugin index. -/
def shutdown_all (env : Nat → PluginDef) (w : World) : List Nat × List String :=
  shutdown_loop env w.reg.plugins

/-- One persisted per-plugin configuration object (a flat JSON object). -/
abbrev ConfigEntry := List (String × JsonVal)

/-- The persisted configuration document: plugin name → flat object. -/
abbrev ConfigDoc := List (String × ConfigEntry)

/-- The filesystem as seen by the manager: path → parsed JSON document.
`json.dump` followed by `json.load` reproduces such a string-keyed document
of scalars exactly, so file contents are modelled as the document itself. -/
abbrev FileSys := List (String × ConfigDoc)

/-- The state of one `PluginManager` (plugin_manager.py lines 23-32):
its registry (with the config heap), its configuration path and the
in-memory `_plugin_configs` map. -/
structure MState where
  world : World
  config_path : String
  plugin_configs : ConfigDoc

/-- `PluginManager.save_config` (plugin_manager.py lines 40-44): write the
`_plugin_configs` document to the configuration path. -/
def save_config (m : MState) (fs : FileSys) : FileSys :=
  alist_update m.config_path m.plugin_configs fs

/-- `PluginManager.load_config` (plugin_manager.py lines 34-38): if the
configuration file exists, replace `_plugin_configs` with its parsed
contents; otherwise do nothing. -/
def load_config (fs : FileSys) (m : MState) : MState :=
  match alist_lookup m.config_path fs with
  | some doc => { m with plugin_configs := doc }
  | none => m

/-- A fresh `PluginManager` instance pointed at a configuration path:
its `_plugin_configs` starts empty. -/
def fresh_manager (path : String) (w : World) : MState :=
  ⟨w, path, []⟩

/-- `PluginManager.set_plugin_priority` (plugin_manager.py lines 149-157):
no-op when the registry has no plugin of that name; otherwise set the live
config object's `priority`, record `"priority"` in the plugin's entry of
`_plugin_configs` (creating the entry when absent) and save the whole
document to disk.  The registry's chains are not touched. -/
def set_plugin_priority (m : MState) (fs : FileSys) (name : String)
    (priority : Int) : MState × FileSys :=
  match alist_lookup name m.world.reg.plugins with
  | none => (m, fs)
  | some pid =>
    let cfg' := fun p =>
      if p = pid then { m.world.cfg p with priority := priority }
      else m.world.cfg p
    let entry := (alist_lookup name m.plugin_configs).getD []
    let m' := { m with
      world := { m.world with cfg := cfg' }
      plugin_configs :=
        alist_update name (alist_update "priority" (JsonVal.jint priority) entry)
          m.plugin_configs }
    (m', save_config m' fs)

/-- The persisted `"enabled"` value for a plugin name. -/
def persisted_enabled (m : MState) (name : String) : Option JsonVal :=
  match alist_lookup name m.plugin_configs with
  | some e => alist_lookup "enabled" e
  | none => none

/-- The persisted `"priority"` value for a plugin name. -/
def persisted_priority (m : MState) (name : String) : Option JsonVal :=
  match alist_lookup name m.plugin_configs with
  | some e => alist_lookup "priority" e
  | none => none

/-- The field specification a plugin contributes for one model/field pair. -/
def field_contrib (env : Nat → PluginDef) (pid : Nat) (model_name f : String) :
    Option FieldSpec :=
  match alist_lookup model_name (env pid).schema_extensions with
  | some fields => alist_lookup f fields
  | none => none

/-- Chains sorted descending by stored priority. -/
def SortedDesc (l : List (Int × Nat)) : Prop :=
  l.Pairwise (fun a b => b.1 ≤ a.1)

/-- The registration sequence tagged with each plugin's registration-time
priority. -/
def tag_of (c : Nat → PluginConfig) (pids : List Nat) : List (Int × Nat) :=
  pids.map (fun p => ((c p).priority, p))

/-- The world obtained by registering a sequence of plugins into a fresh
registry. -/
def reg_world (env : Nat → PluginDef) (c : Nat → PluginConfig)
    (pids : List Nat) : World :=
  (register_all env (init_world c) pids).1

/-- The evolution of one hook chain under a sequence of registrations. -/
def chain_fold (c : Nat → PluginConfig) (pids : List Nat)
    (ch : List (Int × Nat)) : List (Int × Nat) :=
  pids.foldl (fun ch p => sort_desc (ch ++ [((c p).priority, p)])) ch

/-- The evolution of the schema-extension map under a sequence of
registrations. -/
def schema_fold (env : Nat → PluginDef) (pids : List Nat)
    (se : List (String × List (String × FieldSpec))) :
    List (String × List (String × FieldSpec)) :=
  pids.foldl (fun se p => merge_extensions (env p).schema_extensions se) se

/-- The registry invariant: the name index has no duplicate names, every
index entry is keyed by its own plugin's name, and the plugins carried by
each of the four hook chains are exactly the registered plugins, one chain
entry per registered plugin. -/
def Inv (env : Nat → PluginDef) (w : World) : Prop :=
  (w.reg.plugins.map Prod.fst).Nodup ∧
  (∀ e ∈ w.reg.plugins, e.1 = (env e.2).name) ∧
  (w.reg.hook_agent_init.map Prod.snd).Perm (w.reg.plugins.map Prod.snd) ∧
  (w.reg.hook_generate_request.map Prod.snd).Perm (w.reg.plugins.map Prod.snd) ∧
  (w.reg.hook_generate_response.map Prod.snd).Perm (w.reg.plugins.map Prod.snd) ∧
  (w.reg.hook_chat_message.map Prod.snd).Perm (w.reg.plugins.map Prod.snd)

/-- A small concrete plugin environment used to exercise the theorems:
plugin `pid` is named `plugin<pid>`; its `generate_request` callback adds the
key `k<pid>`; plugin 0 and plugin 1 both extend the `AgentConfig` model, with
overlapping field `x`; plugin 1's `shutdown()` raises. -/
def env₀ : Nat → PluginDef := fun pid =>
  { name := "plugin" ++ toString pid
    version := "1.0"
    schema_extensions :=
      if pid = 0 then [("AgentConfig", [("x", "int"), ("y", "str")])]
      else [("AgentConfig", [("x", "int2")])]
    on_agent_init := fun r => r
    on_generate_request := fun r =>
      alist_update ("k" ++ toString pid) (Int.ofNat pid) r
    on_generate_response := fun r => r
    on_chat_message := fun r => r
    shutdown := if pid = 1 then .error "boom" else .ok () }

/-- A concrete config heap: plugin 1 starts disabled, priorities grow with
the pid. -/
def cfg₀ : Nat → PluginConfig := fun pid =>
  { enabled := pid != 1, priority := Int.ofNat pid }

/-! ### Association-list lemmas -/

theorem alist_lookup_update_self {α : Type} (k : String) (v : α) :
    ∀ d : List (String × α), alist_lookup k (alist_update k v d) = some v := by
  intro d
  induction d with
  | nil => simp [alist_update, alist_lookup]
  | cons e rest ih =>
    by_cases h : e.1 = k
    · simp [alist_update, h, alist_lookup]
    · simp [alist_update, h, alist_lookup, ih]

theorem alist_lookup_update_ne {α : Type} {k k' : String} (h : k' ≠ k) (v : α) :
    ∀ d : List (String × α),
      alist_lookup k' (alist_update k v d) = alist_lookup k' d := by
  intro d
  induction d with
  | nil =>
    simp only [alist_update, alist_lookup, if_neg (fun h' : k = k' => h h'.symm)]
  | cons e rest ih =>
    by_cases he : e.1 = k
    · subst he
      simp [alist_update, alist_lookup, Ne.symm h, ih]
    · simp [alist_update, he, alist_lookup, ih]

theorem alist_lookup_append_none {α : Type} {k : String}
    {l₁ l₂ : List (String × α)} (h₁ : alist_lookup k l₁ = none)
    (h₂ : alist_lookup k l₂ = none) : alist_lookup k (l₁ ++ l₂) = none := by
  induction l₁ with
  | nil => simpa using h₂
  | cons e rest ih =>
    simp only [alist_lookup, List.cons_append] at h₁ ⊢
    by_cases he : e.1 = k
    · simp [he] at h₁
    · simp only [he, if_false] at h₁ ⊢
      exact ih h₁

theorem alist_lookup_none_iff {α : Type} (k : String) :
    ∀ l : List (String × α), alist_lookup k l = none ↔ ∀ e ∈ l, e.1 ≠ k := by
  intro l
  induction l with
  | nil => simp [alist_lookup]
  | cons e rest ih =>
    by_cases he : e.1 = k
    · simp [alist_lookup, he]
    · simp [alist_lookup, he, ih]

theorem alist_lookup_mem {α : Type} {k : String} {v : α} :
    ∀ {l : List (String × α)}, alist_lookup k l = some v → (k, v) ∈ l := by
  intro l
  induction l with
  | nil => intro h; simp [alist_lookup] at h
  | cons e rest ih =>
    intro h
    by_cases he : e.1 = k
    · simp only [alist_lookup, he, if_true, Option.some.injEq] at h
      cases e with
      | mk a b =>
        simp only at he h
        subst he
        subst h
        exact List.mem_cons_self _ _
    · simp only [alist_lookup, he, if_false] at h
      exact List.mem_cons_of_mem _ (ih h)

/-! ### Stable-sort lemmas -/

theorem insert_desc_perm (x : Int × Nat) :
    ∀ l : List (Int × Nat), (insert_desc x l).Perm (x :: l) := by
  intro l
  induction l with
  | nil => simp [insert_desc]
  | cons y ys ih =>
    by_cases h : x.1 < y.1
    · simp only [insert_desc, h, if_true]
      exact (ih.cons y).trans (List.Perm.swap x y ys)
    · simp [insert_desc, h]

theorem sort_desc_perm : ∀ l : List (Int × Nat), (sort_desc l).Perm l := by
  intro l
  induction l with
  | nil => simp [sort_desc]
  | cons x xs ih => exact (insert_desc_perm x (sort_desc xs)).trans (ih.cons x)

theorem mem_insert_desc {a x : Int × Nat} {l : List (Int × Nat)} :
    a ∈ insert_desc x l ↔ a = x ∨ a ∈ l := by
  rw [(insert_desc_perm x l).mem_iff, List.mem_cons]

theorem insert_desc_sorted {x : Int × Nat} :
    ∀ {l : List (Int × Nat)}, SortedDesc l → SortedDesc (insert_desc x l) := by
  intro l
  induction l with
  | nil => intro _; simp [insert_desc, SortedDesc]
  | cons y ys ih =>
    intro hs
    rw [SortedDesc, List.pairwise_cons] at hs
    by_cases h : x.1 < y.1
    · simp only [insert_desc, h, if_true]
      rw [SortedDesc, List.pairwise_cons]
      refine ⟨?_, ih hs.2⟩
      intro b hb
      rcases mem_insert_desc.1 hb with hb | hb
      · subst hb; omega
      · exact hs.1 b hb
    · simp only [insert_desc, h, if_false]
      rw [SortedDesc, List.pairwise_cons]
      refine ⟨?_, List.pairwise_cons.2 hs⟩
      intro b hb
      rcases List.mem_cons.1 hb with hb | hb
      · subst hb; omega
      · have := hs.1 b hb; omega

theorem sort_desc_sorted : ∀ l : List (Int × Nat), SortedDesc (sort_desc l) := by
  intro l
  induction l with
  | nil => simp [sort_desc, SortedDesc]
  | cons x xs ih => exact insert_desc_sorted ih

theorem insert_desc_filter_key (x : Int × Nat) (k : Int) :
    ∀ l : List (Int × Nat),
      (insert_desc x l).filter (fun e => e.1 = k) =
        if x.1 = k then x :: l.filter (fun e => e.1 = k)
        else l.filter (fun e => e.1 = k) := by
  intro l
  induction l with
  | nil =>
    simp only [insert_desc, List.filter_cons, List.filter_nil]
    by_cases hx : x.1 = k <;> simp [hx]
  | cons y ys ih =>
    by_cases h : x.1 < y.1
    · have hy : x.1 = k → ¬(y.1 = k) := by omega
      simp only [insert_desc, h, if_true, List.filter_cons, ih]
      by_cases hx : x.1 = k
      · simp [hx, hy hx]
      · simp [hx]
    · simp only [insert_desc, h, if_false, List.filter_cons]
      by_cases hx : x.1 = k
      · simp [hx]
      · simp [hx]

theorem sort_desc_filter_key (k : Int) :
    ∀ l : List (Int × Nat),
      (sort_desc l).filter (fun e => e.1 = k) = l.filter (fun e => e.1 = k) := by
  intro l
  induction l with
  | nil => simp [sort_desc]
  | cons x xs ih =>
    rw [sort_desc, insert_desc_filter_key, List.filter_cons, ih]
    by_cases hx : x.1 = k
    · simp [hx]
    · simp [hx]

theorem filter_key_cons (x : Int × Nat) (l : List (Int × Nat)) (k : Int) :
    (x :: l).filter (fun e => e.1 = k) =
      if x.1 = k then x :: l.filter (fun e => e.1 = k)
      else l.filter (fun e => e.1 = k) := by
  by_cases h : x.1 = k <;> simp [List.filter_cons, h]

theorem filter_key_nil_of_lt {l : List (Int × Nat)} {c k : Int}
    (hb : ∀ e ∈ l, e.1 ≤ c) (hk : c < k) :
    l.filter (fun e => e.1 = k) = [] := by
  rw [List.filter_eq_nil_iff]
  intro e he
  have := hb e he
  simp only [decide_eq_true_eq]
  omega

/-- A list sorted descending by key is determined by its per-key
subsequences. -/
theorem sorted_desc_eq_of_filter_key :
    ∀ {l₁ l₂ : List (Int × Nat)}, SortedDesc l₁ → SortedDesc l₂ →
      (∀ k, l₁.filter (fun e => e.1 = k) = l₂.filter (fun e => e.1 = k)) →
      l₁ = l₂ := by
  intro l₁
  induction l₁ with
  | nil =>
    intro l₂ _ _ hf
    cases l₂ with
    | nil => rfl
    | cons b t₂ =>
      have h1 := hf b.1
      rw [filter_key_cons, if_pos rfl] at h1
      exact absurd h1.symm (List.cons_ne_nil _ _)
  | cons a t₁ ih =>
    intro l₂ hs₁ hs₂ hf
    cases l₂ with
    | nil =>
      have h1 := hf a.1
      rw [filter_key_cons, if_pos rfl] at h1
      exact absurd h1 (List.cons_ne_nil _ _)
    | cons b t₂ =>
      rw [SortedDesc, List.pairwise_cons] at hs₁ hs₂
      have hkey : a.1 = b.1 := by
        by_contra hne
        rcases lt_or_gt_of_ne hne with hlt | hgt
        · have h1 := hf b.1
          rw [filter_key_cons, filter_key_cons, if_pos rfl, if_neg (by omega),
            filter_key_nil_of_lt hs₁.1 hlt] at h1
          exact absurd h1.symm (List.cons_ne_nil _ _)
        · have h1 := hf a.1
          rw [filter_key_cons, filter_key_cons, if_pos rfl, if_neg (by omega),
            filter_key_nil_of_lt hs₂.1 hgt] at h1
          exact absurd h1 (List.cons_ne_nil _ _)
      have hhead := hf a.1
      rw [filter_key_cons, filter_key_cons, if_pos rfl, if_pos hkey.symm] at hhead
      have hab : a = b := (List.cons.inj hhead).1
      have htails : ∀ k,
          t₁.filter (fun e => e.1 = k) = t₂.filter (fun e => e.1 = k) := by
        intro k
        have h2 := hf k
        rw [filter_key_cons, filter_key_cons] at h2
        by_cases hk : a.1 = k
        · rw [if_pos hk, if_pos (hab ▸ hk)] at h2
          exact (List.cons.inj h2).2
        · rw [if_neg hk, if_neg (hab ▸ hk)] at h2
          exact h2
      rw [hab, ih hs₁.2 hs₂.2 htails]

/-! ### The execute_hook loop -/

theorem run_chain_eq (env : Nat → PluginDef) (cfg : Nat → PluginConfig)
    (h : String) :
    ∀ (chain : List (Int × Nat)) (r : Rec),
      run_chain env cfg h chain r =
        ((chain.filter (fun e => (cfg e.2).enabled)).foldl
            (fun s e => apply_callback env h e.2 s) r,
         (chain.filter (fun e => (cfg e.2).enabled)).map Prod.snd) := by
  intro chain
  induction chain with
  | nil => intro r; simp [run_chain]
  | cons e rest ih =>
    intro r
    by_cases he : (cfg e.2).enabled
    · simp [run_chain, he, List.filter_cons, ih]
    · simp [run_chain, he, List.filter_cons, ih]

theorem run_chain_cfg_congr (env : Nat → PluginDef)
    {cfg cfg' : Nat → PluginConfig}
    (hEq : ∀ p, (cfg' p).enabled = (cfg p).enabled) (h : String) :
    ∀ (chain : List (Int × Nat)) (r : Rec),
      run_chain env cfg' h chain r = run_chain env cfg h chain r := by
  intro chain
  induction chain with
  | nil => intro r; rfl
  | cons e rest ih =>
    intro r
    simp only [run_chain, hEq, ih]

theorem hooks_lookup_congr {reg reg' : RegState}
    (h1 : reg'.hook_agent_init = reg.hook_agent_init)
    (h2 : reg'.hook_generate_request = reg.hook_generate_request)
    (h3 : reg'.hook_generate_response = reg.hook_generate_response)
    (h4 : reg'.hook_chat_message = reg.hook_chat_message) :
    ∀ h, hooks_lookup reg' h = hooks_lookup reg h := by
  intro h
  simp only [hooks_lookup, h1, h2, h3, h4]

theorem execute_hook_congr (env : Nat → PluginDef) (w w' : World)
    (hc : ∀ h, hooks_lookup w'.reg h = hooks_lookup w.reg h)
    (he : ∀ p, (w'.cfg p).enabled = (w.cfg p).enabled) (h : String) (r : Rec) :
    execute_hook env w' h r = execute_hook env w h r := by
  rw [execute_hook, execute_hook, hc]
  cases hooks_lookup w.reg h with
  | none => rfl
  | some chain => exact run_chain_cfg_congr env he h chain r

/-! ### Closed form of a registration sequence -/

theorem register_all_spec (env : Nat → PluginDef) :
    ∀ (pids : List Nat) (w : World),
      (pids.map fun p => (env p).name).Nodup →
      (∀ p ∈ pids, alist_lookup (env p).name w.reg.plugins = none) →
      register_all env w pids =
        ({ reg :=
            { plugins := w.reg.plugins ++ pids.map (fun p => ((env p).name, p))
              schema_extensions := schema_fold env pids w.reg.schema_extensions
              hook_agent_init := chain_fold w.cfg pids w.reg.hook_agent_init
              hook_generate_request := chain_fold w.cfg pids w.reg.hook_generate_request
              hook_generate_response := chain_fold w.cfg pids w.reg.hook_generate_response
              hook_chat_message := chain_fold w.cfg pids w.reg.hook_chat_message }
           cfg := w.cfg } , none) := by
  intro pids
  induction pids with
  | nil =>
    intro w _ _
    simp [register_all, chain_fold, schema_fold]
  | cons p rest ih =>
    intro w hnodup hfree
    have hp : alist_lookup (env p).name w.reg.plugins = none :=
      hfree p (List.mem_cons_self _ _)
    have hreg : register env w p =
        ({ w with reg :=
            { plugins := w.reg.plugins ++ [((env p).name, p)]
              schema_extensions :=
                merge_extensions (env p).schema_extensions w.reg.schema_extensions
              hook_agent_init :=
                sort_desc (w.reg.hook_agent_init ++ [((w.cfg p).priority, p)])
              hook_generate_request :=
                sort_desc (w.reg.hook_generate_request ++ [((w.cfg p).priority, p)])
              hook_generate_response :=
                sort_desc (w.reg.hook_generate_response ++ [((w.cfg p).priority, p)])
              hook_chat_message :=
                sort_desc (w.reg.hook_chat_message ++ [((w.cfg p).priority, p)]) } },
         none) := by
      rw [register]
      simp [hp]
    rw [List.map_cons, List.nodup_cons] at hnodup
    have hfree' : ∀ q ∈ rest,
        alist_lookup (env q).name
          (w.reg.plugins ++ [((env p).name, p)]) = none := by
      intro q hq
      apply alist_lookup_append_none (hfree q (List.mem_cons_of_mem _ hq))
      rw [alist_lookup_none_iff]
      intro e he
      rcases List.mem_singleton.1 he with rfl
      simp only
      intro hcon
      exact hnodup.1 (hcon ▸ List.mem_map_of_mem (fun p => (env p).name) hq)
    have hstep : register_all env w (p :: rest) =
        register_all env
          ({ w with reg :=
            { plugins := w.reg.plugins ++ [((env p).name, p)]
              schema_extensions :=
                merge_extensions (env p).schema_extensions w.reg.schema_extensions
              hook_agent_init :=
                sort_desc (w.reg.hook_agent_init ++ [((w.cfg p).priority, p)])
              hook_generate_request :=
                sort_desc (w.reg.hook_generate_request ++ [((w.cfg p).priority, p)])
              hook_generate_response :=
                sort_desc (w.reg.hook_generate_response ++ [((w.cfg p).priority, p)])
              hook_chat_message :=
                sort_desc (w.reg.hook_chat_message ++ [((w.cfg p).priority, p)]) } })
          rest := by
      simp only [register_all, hreg]
    rw [hstep, ih _ hnodup.2 hfree']
    simp [chain_fold, schema_fold, List.foldl_cons, List.append_assoc]

/-- Every chain produced by a registration sequence is sorted. -/
theorem chain_fold_sorted (c : Nat → PluginConfig) :
    ∀ (pids : List Nat) {ch : List (Int × Nat)}, SortedDesc ch →
      SortedDesc (chain_fold c pids ch) := by
  intro pids
  induction pids with
  | nil => intro ch h; exact h
  | cons p rest ih =>
    intro ch _
    rw [chain_fold, List.foldl_cons]
    exact ih (sort_desc_sorted _)

/-- Per-priority subsequences of a chain produced by a registration sequence
coincide with those of the raw (appended) registration sequence: the chain is
a stable descending sort of the registrations. -/
theorem chain_fold_filter_key (c : Nat → PluginConfig) (k : Int) :
    ∀ (pids : List Nat) (ch : List (Int × Nat)),
      (chain_fold c pids ch).filter (fun e => e.1 = k) =
        (ch ++ tag_of c pids).filter (fun e => e.1 = k) := by
  intro pids
  induction pids with
  | nil => intro ch; simp [chain_fold, tag_of]
  | cons p rest ih =>
    intro ch
    rw [chain_fold, List.foldl_cons, ← chain_fold, ih, List.filter_append,
      sort_desc_filter_key, List.filter_append, List.filter_append,
      List.append_assoc]
    congr 1
    rw [show tag_of c (p :: rest) = ((c p).priority, p) :: tag_of c rest from rfl,
      ← List.filter_append, List.singleton_append]

/-- Closed form of the world reached by registering a duplicate-free
sequence of plugins into a fresh registry. -/
theorem reg_world_eq (env : Nat → PluginDef) (c : Nat → PluginConfig)
    (pids : List Nat) (hnodup : (pids.map fun p => (env p).name).Nodup) :
    reg_world env c pids =
      ⟨⟨pids.map (fun p => ((env p).name, p)),
        schema_fold env pids [],
        chain_fold c pids [], chain_fold c pids [],
        chain_fold c pids [], chain_fold c pids []⟩, c⟩ := by
  rw [reg_world,
    register_all_spec env pids (init_world c) hnodup (fun p _ => rfl)]
  simp [init_world]

/-! ### Claims -/

/-- C9: `execute_hook` called with a hook name that is not one of the four
recognized names returns the input record unchanged, invokes no plugin
callback, and raises no error. -/
theorem c9_unrecognized_hook_noop (env : Nat → PluginDef) (w : World)
    (hook_name : String) (r : Rec)
    (h1 : hook_name ≠ "agent_init") (h2 : hook_name ≠ "generate_request")
    (h3 : hook_name ≠ "generate_response") (h4 : hook_name ≠ "chat_message") :
    execute_hook env w hook_name r = (r, []) := by
  rw [execute_hook, hooks_lookup, if_neg h1, if_neg h2, if_neg h3, if_neg h4]

/-- Witness for C9: a concrete unrecognized hook name on a concrete world. -/
theorem c9_witness :
    execute_hook env₀ (init_world cfg₀) "bogus" [("a", 1)] = ([("a", 1)], []) :=
  c9_unrecognized_hook_noop env₀ (init_world cfg₀) "bogus" [("a", 1)]
    (by decide) (by decide) (by decide) (by decide)

/-- C2: registering a plugin whose name is already in the name index raises
the duplicate-name error, and the raise happens before any mutation, so the
returned world — name index, all four hook chains, and the schema-extension
map — is exactly the world before the call. -/
theorem c2_duplicate_register_atomic (env : Nat → PluginDef) (w : World)
    (pid : Nat)
    (h : (alist_lookup (env pid).name w.reg.plugins).isSome = true) :
    register env w pid =
      (w, some ("Plugin " ++ (env pid).name ++ " already registered")) := by
  rw [register]
  simp [h]

/-- Witness for C2: re-registering `plugin0` fails and changes nothing. -/
theorem c2_witness :
    register env₀ (reg_world env₀ cfg₀ [0]) 0 =
      (reg_world env₀ cfg₀ [0], some "Plugin plugin0 already registered") :=
  c2_duplicate_register_atomic env₀ (reg_world env₀ cfg₀ [0]) 0 (by decide)

/-- C6: `shutdown_all` invokes `shutdown()` on every registered plugin, in
registration order and regardless of the enabled flag; a raised exception is
caught and reported as a printed line instead of propagating, so every
remaining plugin is still shut down and the call returns normally. -/
theorem c6_shutdown_all_isolated (env : Nat → PluginDef) (w : World) :
    (shutdown_all env w).1 = w.reg.plugins.map Prod.snd ∧
    (shutdown_all env w).2 = w.reg.plugins.filterMap (fun e =>
      match (env e.2).shutdown with
      | .ok _ => none
      | .error msg =>
        some ("Error shutting down plugin " ++ (env e.2).name ++ ": " ++ msg)) := by
  rw [shutdown_all]
  induction w.reg.plugins with
  | nil => exact ⟨rfl, rfl⟩
  | cons e rest ih =>
    simp only [shutdown_loop, List.map_cons, List.filterMap_cons]
    cases hs : (env e.2).shutdown with
    | ok u => simp [hs, ih.1, ih.2]
    | error msg => simp [hs, ih.1, ih.2]

/-- Dropping a disabled plugin's entries from a chain does not change the
run: the loop itself skips them. -/
theorem run_chain_drop_disabled (env : Nat → PluginDef)
    (cfg : Nat → PluginConfig) {pid : Nat}
    (hdis : (cfg pid).enabled = false) (h : String) :
    ∀ (chain : List (Int × Nat)) (r : Rec),
      run_chain env cfg h chain r =
        run_chain env cfg h (chain.filter (fun e => e.2 ≠ pid)) r := by
  intro chain
  induction chain with
  | nil => intro r; rfl
  | cons e rest ih =>
    intro r
    rw [List.filter_cons]
    by_cases hpe : e.2 = pid
    · rw [if_neg (by simp [hpe])]
      have he : (cfg e.2).enabled = false := by rw [hpe]; exact hdis
      simp only [run_chain, he, Bool.false_eq_true, if_false]
      exact ih r
    · rw [if_pos (by simp [hpe])]
      by_cases he : (cfg e.2).enabled <;> simp [run_chain, he, ih]

/-- C4: a registered plugin whose configuration is disabled is skipped by
`execute_hook` on every recognized hook: the result and the invocation trace
equal those of the chain with that plugin's entries absent, while the
plugin's name still appears in `list_plugins`. -/
theorem c4_disabled_plugin_skipped (env : Nat → PluginDef) (w : World)
    (name : String) (pid : Nat) (hook_name : String)
    (chain : List (Int × Nat)) (r : Rec)
    (hlook : alist_lookup name w.reg.plugins = some pid)
    (hdis : (w.cfg pid).enabled = false)
    (hchain : hooks_lookup w.reg hook_name = some chain) :
    execute_hook env w hook_name r =
      run_chain env w.cfg hook_name (chain.filter (fun e => e.2 ≠ pid)) r ∧
    pid ∉ (execute_hook env w hook_name r).2 ∧
    name ∈ list_plugins w := by
  have hx : execute_hook env w hook_name r =
      run_chain env w.cfg hook_name chain r := by
    rw [execute_hook, hchain]
  have hdrop : execute_hook env w hook_name r =
      run_chain env w.cfg hook_name (chain.filter (fun e => e.2 ≠ pid)) r := by
    rw [hx]
    exact run_chain_drop_disabled env w.cfg hdis hook_name chain r
  refine ⟨hdrop, ?_, List.mem_map.2 ⟨(name, pid), alist_lookup_mem hlook, rfl⟩⟩
  rw [hdrop, run_chain_eq]
  intro hmem
  rcases List.mem_map.1 hmem with ⟨e, he, hpe⟩
  have he₁ := List.mem_of_mem_filter he
  have he₂ : e.2 ≠ pid := by simpa using List.of_mem_filter he₁
  exact he₂ hpe

/-- Witness for C4: disabled `plugin1` is skipped on `generate_request` but
still listed. -/
theorem c4_witness :
    execute_hook env₀ (reg_world env₀ cfg₀ [0, 1]) "generate_request" [] =
      run_chain env₀ (reg_world env₀ cfg₀ [0, 1]).cfg "generate_request"
        ([(1, 1), (0, 0)].filter (fun e => e.2 ≠ 1)) [] ∧
    1 ∉ (execute_hook env₀ (reg_world env₀ cfg₀ [0, 1]) "generate_request" []).2 ∧
    "plugin1" ∈ list_plugins (reg_world env₀ cfg₀ [0, 1]) :=
  c4_disabled_plugin_skipped env₀ (reg_world env₀ cfg₀ [0, 1])
    "plugin1" 1 "generate_request" [(1, 1), (0, 0)] []
    (by decide) (by decide) (by decide)

/-- C8: `save_config()` followed by `load_config()` on a fresh manager
instance pointed at the same configuration path reproduces the
persisted-configuration document, and with it every plugin name's persisted
enabled and priority values. -/
theorem c8_config_round_trip (m : MState) (fs : FileSys) (w0 : World) :
    (load_config (save_config m fs) (fresh_manager m.config_path w0)).plugin_configs
        = m.plugin_configs ∧
    ∀ name,
      persisted_enabled
          (load_config (save_config m fs) (fresh_manager m.config_path w0)) name
        = persisted_enabled m name ∧
      persisted_priority
          (load_config (save_config m fs) (fresh_manager m.config_path w0)) name
        = persisted_priority m name := by
  have h : (load_config (save_config m fs)
      (fresh_manager m.config_path w0)).plugin_configs = m.plugin_configs := by
    rw [load_config, save_config]
    simp [fresh_manager, alist_lookup_update_self]
  refine ⟨h, fun name => ⟨?_, ?_⟩⟩
  · simp only [persisted_enabled, h]
  · simp only [persisted_priority, h]

/-- C5: for a registered plugin, `set_plugin_priority` sets the live
configuration's priority, records it in the persisted-configuration map and
in the saved file, yet leaves the registry object — in particular every hook
chain with its registration-time priority tags — untouched, so `execute_hook`
afterwards produces the same result and invokes the same plugin sequence as
before the call, on every hook and record. -/
theorem c5_set_priority_frame (m : MState) (fs : FileSys) (name : String)
    (priority : Int) (pid : Nat)
    (hlook : alist_lookup name m.world.reg.plugins = some pid) :
    ((set_plugin_priority m fs name priority).1.world.cfg pid).priority
        = priority ∧
    persisted_priority (set_plugin_priority m fs name priority).1 name
        = some (JsonVal.jint priority) ∧
    alist_lookup (set_plugin_priority m fs name priority).1.config_path
        (set_plugin_priority m fs name priority).2
      = some (set_plugin_priority m fs name priority).1.plugin_configs ∧
    (set_plugin_priority m fs name priority).1.world.reg = m.world.reg ∧
    ∀ (env : Nat → PluginDef) (hook_name : String) (r : Rec),
      execute_hook env (set_plugin_priority m fs name priority).1.world hook_name r
        = execute_hook env m.world hook_name r := by
  simp only [set_plugin_priority, hlook]
  refine ⟨by simp, ?_, ?_, trivial, ?_⟩
  · simp only [persisted_priority, alist_lookup_update_self]
  · simp only [save_config, alist_lookup_update_self]
  · intro env hook_name r
    refine execute_hook_congr env m.world
      { reg := m.world.reg,
        cfg := fun p =>
          if p = pid then { enabled := (m.world.cfg p).enabled, priority := priority }
          else m.world.cfg p }
      (fun h => rfl) ?_ hook_name r
    intro p
    by_cases hp : p = pid <;> simp [hp]

/-- Witness for C5: after `set_plugin_priority` on `plugin0`, the live
priority is updated. -/
theorem c5_witness :
    ((set_plugin_priority ⟨reg_world env₀ cfg₀ [0], "plugins.json", []⟩ []
        "plugin0" 5).1.world.cfg 0).priority = 5 :=
  (c5_set_priority_frame ⟨reg_world env₀ cfg₀ [0], "plugins.json", []⟩ []
    "plugin0" 5 0 (by decide)).1

/-- C1: after any duplicate-free sequence of registrations into a fresh
registry, the chain stored under each recognized hook name is sorted in
strictly descending registration-time priority with ties preserving
registration order (its per-priority subsequences equal those of the
registration sequence), and `execute_hook` runs exactly the enabled entries
of that chain in chain order, each callback receiving the previous
callback's output starting from the input record, the last output (or the
input record when nobody is invoked) being the result. -/
theorem c1_hook_order (env : Nat → PluginDef) (c : Nat → PluginConfig)
    (pids : List Nat) (hook_name : String) (r : Rec)
    (hnodup : (pids.map fun p => (env p).name).Nodup)
    (hhook : hook_name = "agent_init" ∨ hook_name = "generate_request" ∨
      hook_name = "generate_response" ∨ hook_name = "chat_message") :
    hooks_lookup (reg_world env c pids).reg hook_name
        = some (chain_fold c pids []) ∧
    SortedDesc (chain_fold c pids []) ∧
    (∀ k, (chain_fold c pids []).filter (fun e => e.1 = k)
        = (tag_of c pids).filter (fun e => e.1 = k)) ∧
    execute_hook env (reg_world env c pids) hook_name r =
      (((chain_fold c pids []).filter (fun e => (c e.2).enabled)).foldl
          (fun s e => apply_callback env hook_name e.2 s) r,
       ((chain_fold c pids []).filter (fun e => (c e.2).enabled)).map Prod.snd) := by
  have hw := reg_world_eq env c pids hnodup
  have hchain : hooks_lookup (reg_world env c pids).reg hook_name
      = some (chain_fold c pids []) := by
    rw [hw]
    rcases hhook with h | h | h | h <;> subst h <;> simp [hooks_lookup]
  have hcfg : (reg_world env c pids).cfg = c := by rw [hw]
  refine ⟨hchain, chain_fold_sorted c pids (List.Pairwise.nil), ?_, ?_⟩
  · intro k
    have := chain_fold_filter_key c k pids []
    simpa using this
  · rw [execute_hook, hchain, hcfg]
    exact run_chain_eq env c hook_name _ r

/-- Witness for C1: three plugins with priorities 0, 1, 2 (plugin 1
disabled) run on `generate_request` in descending-priority order, the
enabled ones chaining their outputs. -/
theorem c1_witness :
    execute_hook env₀ (reg_world env₀ cfg₀ [0, 1, 2]) "generate_request" []
      = ([("k2", 2), ("k0", 0)], [2, 0]) :=
  (c1_hook_order env₀ cfg₀ [0, 1, 2] "generate_request" [] (by decide)
    (Or.inr (Or.inl rfl))).2.2.2

/-- A registration that returned without raising found the name absent. -/
theorem register_ok_not_present (env : Nat → PluginDef) (w : World) (pid : Nat)
    (hok : (register env w pid).2 = none) :
    alist_lookup (env pid).name w.reg.plugins = none := by
  cases hb : alist_lookup (env pid).name w.reg.plugins with
  | none => rfl
  | some q => rw [register] at hok; simp [hb] at hok

/-- Folding a plugin's field dict into the current field dict: a field the
plugin contributes wins, any other field reads from the current dict. -/
theorem fields_fold_lookup (f : String) :
    ∀ (fields cur : List (String × FieldSpec)),
      (fields.map Prod.fst).Nodup →
      alist_lookup f (fields.foldl (fun d fv => alist_update fv.1 fv.2 d) cur) =
        (match alist_lookup f fields with
         | some v => some v
         | none => alist_lookup f cur) := by
  intro fields
  induction fields with
  | nil => intro cur _; simp [alist_lookup]
  | cons kv rest ih =>
    intro cur hn
    rw [List.map_cons, List.nodup_cons] at hn
    rw [List.foldl_cons, ih _ hn.2]
    by_cases hf : kv.1 = f
    · have hrest : alist_lookup f rest = none := by
        rw [alist_lookup_none_iff]
        intro e he hc
        apply hn.1
        rw [hf, ← hc]
        exact List.mem_map_of_mem Prod.fst he
      rw [hrest]
      subst hf
      simp [alist_lookup, alist_lookup_update_self]
    · cases hr : alist_lookup f rest with
      | some v => simp [hr, alist_lookup, hf]
      | none => simp [hr, alist_lookup, hf, alist_lookup_update_ne (Ne.symm hf)]

/-- A model absent from a plugin's extensions is untouched by the merge. -/
theorem merge_lookup_none (model : String) :
    ∀ (exts se : List (String × List (String × FieldSpec))),
      alist_lookup model exts = none →
      alist_lookup model (merge_extensions exts se) = alist_lookup model se := by
  intro exts
  induction exts with
  | nil => intro se _; rfl
  | cons me rest ih =>
    intro se h
    rw [alist_lookup] at h
    by_cases hm : me.1 = model
    · simp [hm] at h
    · rw [if_neg hm] at h
      rw [show merge_extensions (me :: rest) se = merge_extensions rest
          (alist_update me.1 (me.2.foldl (fun d fv => alist_update fv.1 fv.2 d)
            ((alist_lookup me.1 se).getD [])) se) from rfl]
      rw [ih _ h, alist_lookup_update_ne (fun hx => hm hx.symm)]

/-- A model present in a plugin's extensions reads back, after the merge, as
the plugin's field dict folded over the model's previous field dict. -/
theorem merge_lookup_some (model : String) :
    ∀ (exts se : List (String × List (String × FieldSpec)))
      (fields : List (String × FieldSpec)),
      (exts.map Prod.fst).Nodup →
      alist_lookup model exts = some fields →
      alist_lookup model (merge_extensions exts se) =
        some (fields.foldl (fun d fv => alist_update fv.1 fv.2 d)
          ((alist_lookup model se).getD [])) := by
  intro exts
  induction exts with
  | nil => intro se fields _ h; simp [alist_lookup] at h
  | cons me rest ih =>
    intro se fields hn h
    rw [List.map_cons, List.nodup_cons] at hn
    rw [show merge_extensions (me :: rest) se = merge_extensions rest
        (alist_update me.1 (me.2.foldl (fun d fv => alist_update fv.1 fv.2 d)
          ((alist_lookup me.1 se).getD [])) se) from rfl]
    by_cases hm : me.1 = model
    · have hfields : fields = me.2 := by
        rw [alist_lookup, if_pos hm] at h
        exact (Option.some.inj h).symm
      have hrest : alist_lookup model rest = none := by
        rw [alist_lookup_none_iff]
        intro e he hc
        apply hn.1
        rw [hm, ← hc]
        exact List.mem_map_of_mem Prod.fst he
      rw [merge_lookup_none model rest _ hrest]
      subst hm
      rw [alist_lookup_update_self, hfields]
    · rw [alist_lookup, if_neg hm] at h
      rw [ih _ _ hn.2 h, alist_lookup_update_ne (fun hx => hm hx.symm)]

/-- C7: the schema-extension merge is last-registered-wins per model/field
pair: after a successful registration, every model/field pair the new plugin
contributes reads back as that plugin's specification, every pair it does not
contribute is unchanged (so different field names on the same model
coexist), and a model with no extensions reads back as the empty map in a
fresh registry. -/
theorem c7_schema_last_wins (env : Nat → PluginDef) (w : World) (pid : Nat)
    (c : Nat → PluginConfig)
    (hok : (register env w pid).2 = none)
    (hm : ((env pid).schema_extensions.map Prod.fst).Nodup)
    (hf : ∀ mf ∈ (env pid).schema_extensions, (mf.2.map Prod.fst).Nodup) :
    (∀ model_name f v, field_contrib env pid model_name f = some v →
      alist_lookup f (get_schema_extensions (register env w pid).1 model_name)
        = some v) ∧
    (∀ model_name f, field_contrib env pid model_name f = none →
      alist_lookup f (get_schema_extensions (register env w pid).1 model_name)
        = alist_lookup f (get_schema_extensions w model_name)) ∧
    (∀ model_name, get_schema_extensions (init_world c) model_name = []) := by
  have hc := register_ok_not_present env w pid hok
  have hschema : (register env w pid).1.reg.schema_extensions =
      merge_extensions (env pid).schema_extensions w.reg.schema_extensions := by
    rw [register]
    simp [hc]
  refine ⟨?_, ?_, fun model_name => rfl⟩
  · intro model_name f v hcontrib
    cases hlm : alist_lookup model_name (env pid).schema_extensions with
    | none => simp [field_contrib, hlm] at hcontrib
    | some fields =>
      simp only [field_contrib, hlm] at hcontrib
      have hfn : (fields.map Prod.fst).Nodup :=
        hf (model_name, fields) (alist_lookup_mem hlm)
      rw [get_schema_extensions, hschema,
        merge_lookup_some model_name (env pid).schema_extensions
          w.reg.schema_extensions fields hm hlm]
      rw [Option.getD_some, fields_fold_lookup f fields _ hfn, hcontrib]
  · intro model_name f hcontrib
    cases hlm : alist_lookup model_name (env pid).schema_extensions with
    | none =>
      rw [get_schema_extensions, get_schema_extensions, hschema,
        merge_lookup_none model_name _ _ hlm]
    | some fields =>
      simp only [field_contrib, hlm] at hcontrib
      have hfn : (fields.map Prod.fst).Nodup :=
        hf (model_name, fields) (alist_lookup_mem hlm)
      rw [get_schema_extensions, get_schema_extensions, hschema,
        merge_lookup_some model_name (env pid).schema_extensions
          w.reg.schema_extensions fields hm hlm]
      rw [Option.getD_some, fields_fold_lookup f fields _ hfn, hcontrib]

/-- Witness for C7: plugin 1's `AgentConfig.x` specification overwrites
plugin 0's, while plugin 0's `y` would be read through the unchanged pairs. -/
theorem c7_witness :
    alist_lookup "x"
        (get_schema_extensions (register env₀ (reg_world env₀ cfg₀ [0]) 1).1
          "AgentConfig") = some "int2" :=
  (c7_schema_last_wins env₀ (reg_world env₀ cfg₀ [0]) 1 cfg₀ (by decide)
    (by decide) (by decide)).1 "AgentConfig" "x" "int2" (by decide)

/-- With duplicate-free keys, the value found by lookup is the value of
every entry carrying that key. -/
theorem alist_lookup_unique {α : Type} {k : String} {v : α} :
    ∀ {l : List (String × α)}, (l.map Prod.fst).Nodup →
      alist_lookup k l = some v → ∀ e ∈ l, e.1 = k → e.2 = v := by
  intro l
  induction l with
  | nil => intro _ h; simp [alist_lookup] at h
  | cons e₀ rest ih =>
    intro hn h e he hek
    rw [List.map_cons, List.nodup_cons] at hn
    rw [alist_lookup] at h
    by_cases h₀ : e₀.1 = k
    · rw [if_pos h₀] at h
      have h₂ := Option.some.inj h
      rcases List.mem_cons.1 he with rfl | hmem
      · exact h₂
      · exfalso
        have : e.1 ∈ rest.map Prod.fst := List.mem_map_of_mem Prod.fst hmem
        rw [hek, ← h₀] at this
        exact hn.1 this
    · rw [if_neg h₀] at h
      rcases List.mem_cons.1 he with rfl | hmem
      · exact absurd hek h₀
      · exact ih hn.2 h e hmem hek

/-- On a successful registration the new world is the expected literal. -/
theorem register_ok_eq (env : Nat → PluginDef) (w : World) (pid : Nat)
    (hc : alist_lookup (env pid).name w.reg.plugins = none) :
    register env w pid =
      ({ w with reg :=
          { plugins := w.reg.plugins ++ [((env pid).name, pid)]
            schema_extensions :=
              merge_extensions (env pid).schema_extensions w.reg.schema_extensions
            hook_agent_init :=
              sort_desc (w.reg.hook_agent_init ++ [((w.cfg pid).priority, pid)])
            hook_generate_request :=
              sort_desc (w.reg.hook_generate_request ++ [((w.cfg pid).priority, pid)])
            hook_generate_response :=
              sort_desc (w.reg.hook_generate_response ++ [((w.cfg pid).priority, pid)])
            hook_chat_message :=
              sort_desc (w.reg.hook_chat_message ++ [((w.cfg pid).priority, pid)]) } },
       none) := by
  rw [register]
  simp [hc]

/-- C10: the registry invariant — duplicate-free name index whose entries
are keyed by their plugin's name, and four hook chains each carrying exactly
one entry per registered plugin — holds for a fresh registry and is
preserved by every successful `register` (which appends the plugin, tagged
with its registration-time priority, to all four chains unconditionally and
stably re-sorts each) and by every `unregister`. -/
theorem c10_chain_invariant (env : Nat → PluginDef) (c : Nat → PluginConfig) :
    Inv env (init_world c) ∧
    (∀ (w : World) (pid : Nat), (register env w pid).2 = none → Inv env w →
      Inv env (register env w pid).1 ∧
      (register env w pid).1.reg.hook_agent_init =
        sort_desc (w.reg.hook_agent_init ++ [((w.cfg pid).priority, pid)]) ∧
      (register env w pid).1.reg.hook_generate_request =
        sort_desc (w.reg.hook_generate_request ++ [((w.cfg pid).priority, pid)]) ∧
      (register env w pid).1.reg.hook_generate_response =
        sort_desc (w.reg.hook_generate_response ++ [((w.cfg pid).priority, pid)]) ∧
      (register env w pid).1.reg.hook_chat_message =
        sort_desc (w.reg.hook_chat_message ++ [((w.cfg pid).priority, pid)])) ∧
    (∀ (w : World) (name : String), Inv env w → Inv env (unregister w name)) := by
  refine ⟨?_, ?_, ?_⟩
  · simp [Inv, init_world]
  · intro w pid hok hinv
    obtain ⟨hnodup, hnames, hp1, hp2, hp3, hp4⟩ := hinv
    have hc := register_ok_not_present env w pid hok
    rw [register_ok_eq env w pid hc]
    have hperm : ∀ ch : List (Int × Nat),
        (ch.map Prod.snd).Perm (w.reg.plugins.map Prod.snd) →
        ((sort_desc (ch ++ [((w.cfg pid).priority, pid)])).map Prod.snd).Perm
          ((w.reg.plugins ++ [((env pid).name, pid)]).map Prod.snd) := by
      intro ch hch
      refine ((sort_desc_perm _).map Prod.snd).trans ?_
      rw [List.map_append, List.map_append]
      exact hch.append_right _
    refine ⟨⟨?_, ?_, hperm _ hp1, hperm _ hp2, hperm _ hp3, hperm _ hp4⟩,
      rfl, rfl, rfl, rfl⟩
    · rw [List.map_append]
      refine hnodup.append (List.nodup_singleton _) ?_
      intro a ha hb
      rcases List.mem_singleton.1 hb with rfl
      rcases List.mem_map.1 ha with ⟨e, he, hea⟩
      exact ((alist_lookup_none_iff _ _).1 hc e he) hea
    · intro e he
      rcases List.mem_append.1 he with he | he
      · exact hnames e he
      · rcases List.mem_singleton.1 he with rfl; rfl
  · intro w name hinv
    obtain ⟨hnodup, hnames, hp1, hp2, hp3, hp4⟩ := hinv
    cases hl : alist_lookup name w.reg.plugins with
    | none =>
      rw [unregister, hl]
      exact ⟨hnodup, hnames, hp1, hp2, hp3, hp4⟩
    | some pid₀ =>
      rw [unregister, hl]
      have hmem : (name, pid₀) ∈ w.reg.plugins := alist_lookup_mem hl
      have hname₀ : name = (env pid₀).name := hnames _ hmem
      have hfeq : w.reg.plugins.filter (fun e => e.1 ≠ name)
          = w.reg.plugins.filter (fun e => e.2 ≠ pid₀) := by
        apply List.filter_congr
        intro e he
        apply decide_eq_decide.2
        constructor
        · intro hne hpe
          apply hne
          rw [hnames e he, hpe, ← hname₀]
        · intro hne heq
          exact hne (alist_lookup_unique hnodup hl e he heq)
      have hperm : ∀ ch : List (Int × Nat),
          (ch.map Prod.snd).Perm (w.reg.plugins.map Prod.snd) →
          ((ch.filter (fun e => e.2 ≠ pid₀)).map Prod.snd).Perm
            ((w.reg.plugins.filter (fun e => e.1 ≠ name)).map Prod.snd) := by
        intro ch hch
        have lhs : (ch.filter (fun e => e.2 ≠ pid₀)).map Prod.snd
            = (ch.map Prod.snd).filter (fun q => q ≠ pid₀) := by
          rw [List.filter_map]
          rfl
        have rhs : (w.reg.plugins.filter (fun e => e.1 ≠ name)).map Prod.snd
            = (w.reg.plugins.map Prod.snd).filter (fun q => q ≠ pid₀) := by
          rw [hfeq, List.filter_map]
          rfl
        rw [lhs, rhs]
        exact hch.filter _
      refine ⟨?_, ?_, hperm _ hp1, hperm _ hp2, hperm _ hp3, hperm _ hp4⟩
      · exact hnodup.sublist ((List.filter_sublist _).map _)
      · intro e he
        exact hnames e (List.mem_of_mem_filter he)

/-- Witness for C10: the invariant holds after one concrete registration
into a fresh registry. -/
theorem c10_witness : Inv env₀ (register env₀ (init_world cfg₀) 0).1 :=
  ((c10_chain_invariant env₀ cfg₀).2.1 (init_world cfg₀) 0 (by decide)
    ((c10_chain_invariant env₀ cfg₀).1)).1

/-- C3: `unregister` is a no-op when no plugin of that name is registered;
otherwise it removes the plugin from the name index and purges its entries —
by plugin identity — from every hook chain, after which every `execute_hook`
call returns the same record and invokes the same plugin sequence as a
registry built without that plugin ever having been registered. -/
theorem c3_unregister_purges (env : Nat → PluginDef) (c : Nat → PluginConfig)
    (pids : List Nat) (name : String)
    (hnodup : (pids.map fun p => (env p).name).Nodup) :
    (∀ (w : World) (n : String), alist_lookup n w.reg.plugins = none →
      unregister w n = w) ∧
    alist_lookup name (unregister (reg_world env c pids) name).reg.plugins
        = none ∧
    ∀ (hook_name : String) (r : Rec),
      execute_hook env (unregister (reg_world env c pids) name) hook_name r =
        execute_hook env
          (reg_world env c (pids.filter (fun p => (env p).name ≠ name)))
          hook_name r := by
  have hnoop : ∀ (w : World) (n : String),
      alist_lookup n w.reg.plugins = none → unregister w n = w := by
    intro w n h
    rw [unregister, h]
  refine ⟨hnoop, ?_⟩
  have hw := reg_world_eq env c pids hnodup
  have hplug : (reg_world env c pids).reg.plugins
      = pids.map (fun p => ((env p).name, p)) := by rw [hw]
  have hnodup' : ((pids.filter (fun p => (env p).name ≠ name)).map
      fun p => (env p).name).Nodup :=
    hnodup.sublist ((List.filter_sublist _).map _)
  have hw₂ := reg_world_eq env c (pids.filter (fun p => (env p).name ≠ name))
    hnodup'
  cases hl : alist_lookup name (reg_world env c pids).reg.plugins with
  | none =>
    have hfa : ∀ p ∈ pids, (env p).name ≠ name := by
      intro p hp
      have hmap := (alist_lookup_none_iff name _).1 (hplug ▸ hl)
      exact hmap _ (List.mem_map_of_mem _ hp)
    have hpf : pids.filter (fun p => (env p).name ≠ name) = pids :=
      List.filter_eq_self.2 (fun p hp => decide_eq_true (hfa p hp))
    rw [hnoop _ _ hl, hpf]
    exact ⟨hl, fun hook_name r => rfl⟩
  | some pid₀ =>
    have hmem : (name, pid₀) ∈ pids.map (fun p => ((env p).name, p)) := by
      rw [← hplug]
      exact alist_lookup_mem hl
    obtain ⟨p₀, hp₀, hpe⟩ := List.mem_map.1 hmem
    have hpname : (env p₀).name = name := congrArg Prod.fst hpe
    have hpid : p₀ = pid₀ := congrArg Prod.snd hpe
    subst hpid
    have hl' : alist_lookup name (pids.map (fun p => ((env p).name, p)))
        = some p₀ := by
      rw [← hplug]
      exact hl
    have hu : unregister (reg_world env c pids) name =
        ⟨⟨(pids.map (fun p => ((env p).name, p))).filter (fun e => e.1 ≠ name),
          schema_fold env pids [],
          (chain_fold c pids []).filter (fun e => e.2 ≠ p₀),
          (chain_fold c pids []).filter (fun e => e.2 ≠ p₀),
          (chain_fold c pids []).filter (fun e => e.2 ≠ p₀),
          (chain_fold c pids []).filter (fun e => e.2 ≠ p₀)⟩, c⟩ := by
      rw [hw]
      simp only [unregister, hl']
    constructor
    · rw [hu]
      rw [alist_lookup_none_iff]
      intro e he
      have hmemf := List.of_mem_filter he
      simpa using hmemf
    · intro hook_name r
      have hinj := List.inj_on_of_nodup_map hnodup
      have hfilters : ∀ k,
          ((chain_fold c pids []).filter (fun e => e.2 ≠ p₀)).filter
              (fun e => e.1 = k)
            = (chain_fold c (pids.filter (fun p => (env p).name ≠ name))
                []).filter (fun e => e.1 = k) := by
        intro k
        rw [List.filter_comm, chain_fold_filter_key, chain_fold_filter_key,
          List.nil_append, List.nil_append, List.filter_comm]
        congr 1
        rw [tag_of, tag_of, List.filter_map]
        congr 1
        apply List.filter_congr
        intro p hp
        apply decide_eq_decide.2
        show (p ≠ p₀) ↔ ((env p).name ≠ name)
        constructor
        · intro hne hnn
          exact hne (hinj hp hp₀ (by rw [hnn, hpname]))
        · intro hnn hpe'
          apply hnn
          rw [hpe']
          exact hpname
      have hchain : (chain_fold c pids []).filter (fun e => e.2 ≠ p₀)
          = chain_fold c (pids.filter (fun p => (env p).name ≠ name)) [] :=
        sorted_desc_eq_of_filter_key
          (List.Pairwise.sublist (List.filter_sublist _)
            (chain_fold_sorted c pids List.Pairwise.nil))
          (chain_fold_sorted c _ List.Pairwise.nil) hfilters
      refine execute_hook_congr env
        (reg_world env c (pids.filter (fun p => (env p).name ≠ name)))
        (unregister (reg_world env c pids) name) ?_ ?_ hook_name r
      · intro h
        rw [hu, hw₂]
        exact hooks_lookup_congr hchain hchain hchain hchain h
      · intro p
        rw [hu, hw₂]

/-- Witness for C3: unregistering `plugin0` from a two-plugin registry makes
`generate_request` behave as if only `plugin2` had ever been registered. -/
theorem c3_witness :
    alist_lookup "plugin0"
        (unregister (reg_world env₀ cfg₀ [0, 2]) "plugin0").reg.plugins
      = none :=
  (c3_unregister_purges env₀ cfg₀ [0, 2] "plugin0" (by decide)).2.1

end AiCli
